import Mathlib

/-!
Verification of ethereum-validator-api: block reward and sync duties.

A shallow embedding of `ethereum/client.go` and `handlers/handlers.go`.

Go strings are byte sequences.  They are represented by Lean strings, one
character per byte (an ASCII byte is its character, a byte from `0x80` on is
the character with that code), and every operation works on the underlying
character list (`String.data`).

The one library routine that consults Unicode tables, the branch
`strings.Map(unicode.ToLower, s)` of `strings.ToLower`, is a parameter
`mapUnicodeLower` of the definitions that reach it; every result holds for
every value of that parameter.
-/

namespace EthValidatorApi

/-! ## Go run-time primitives -/

/-- Outcome of running a piece of Go code: it finishes with a value, or it
stops with a run-time panic (slice bounds out of range, nil dereference). -/
inductive Exec (α : Type) where
  | done (a : α)
  | crash
  deriving DecidableEq

/-- Sequencing of two pieces of Go code: a panic in the first stops the run. -/
def Exec.bind {α β : Type} : Exec α → (α → Exec β) → Exec β
  | .done a, f => f a
  | .crash, _ => .crash

/-- The Go slice expression `s[n:]` on a string: panics when `n > len(s)`. -/
def sliceFrom (s : String) (n : Nat) : Exec String :=
  if n ≤ s.data.length then .done ⟨s.data.drop n⟩ else .crash

/-- The Go slice expression `s[n:]` written with `n = len(s) - k`, where the
subtraction is on Go `int`: a negative start panics. -/
def sliceLast (s : String) (k : Nat) : Exec String :=
  if k ≤ s.data.length then .done ⟨s.data.drop (s.data.length - k)⟩ else .crash

/-! ## `math/big` -/

/-- Digit value of one byte as `nat.scan` of `math/big` computes it: decimal
digits, then letters of either case from 10 on; any other byte gets
`MaxBase + 1 = 63`, which is no digit in any base. -/
def digitVal (c : Char) : Nat :=
  if 48 ≤ c.toNat ∧ c.toNat ≤ 57 then c.toNat - 48            -- '0' .. '9'
  else if 97 ≤ c.toNat ∧ c.toNat ≤ 122 then c.toNat - 97 + 10  -- 'a' .. 'z'
  else if 65 ≤ c.toNat ∧ c.toNat ≤ 90 then c.toNat - 65 + 10   -- 'A' .. 'Z'
  else 63

/-- The digit loop of `nat.scan` for an explicit base (no separators, no
fraction): consumes bytes while they are digits below `base`.  Returns the
accumulated value, the number of digits read and the unread rest. -/
def scanDigits (base : Nat) : List Char → Nat → Nat → Nat × Nat × List Char
  | [], acc, count => (acc, count, [])
  | c :: cs, acc, count =>
    if digitVal c ≥ base then (acc, count, c :: cs)
    else scanDigits base cs (acc * base + digitVal c) (count + 1)

/-- The call `new(big.Int).SetString(s, base)` for an explicit base: the value the fresh
receiver holds after the call, and the `ok` flag.  `scanSign` fails on the empty
string before the receiver is touched; an optional sign is consumed; when no
digit follows the magnitude is set to zero and the call fails; otherwise the
receiver holds the digits read, and the call fails when bytes are left over. -/
def SetString (s : String) (base : Nat) : Int × Bool :=
  match s.data with
  | [] => (0, false)
  | c :: cs =>
    let neg := c == '-'
    let body := if c == '+' || c == '-' then cs else c :: cs
    match scanDigits base body 0 0 with
    | (abs, count, rest) =>
      if count == 0 then (0, false)
      else ((if neg then -(abs : Int) else (abs : Int)), rest.isEmpty)

/-- The method `(*big.Int).Uint64`: the low 64 bits of the magnitude. -/
def Uint64 (x : Int) : Nat := x.natAbs % 2 ^ 64

/-! ## Data model (`ethereum/client.go`) -/

/-- An execution-layer transaction; an omitted JSON field decodes to `""`. -/
structure Transaction where
  Hash : String := ""
  GasPrice : String := ""
  MaxFeePerGas : String := ""
  MaxPriorityFeePerGas : String := ""
  Gas : String := ""
  deriving DecidableEq

/-- An execution-layer block. -/
structure Block where
  Number : String := ""
  Hash : String := ""
  BaseFeePerGas : String := ""
  GasUsed : String := ""
  Miner : String := ""
  Transactions : List Transaction := []
  deriving DecidableEq

/-! ## `CalculateBlockReward` -/

/-- The per-gas priority fee of one transaction, first half of the loop body of
`CalculateBlockReward`. -/
def txPriorityFee (baseFee : Int) (tx : Transaction) : Exec Int :=
  if tx.MaxPriorityFeePerGas ≠ "" then
    (sliceFrom tx.MaxPriorityFeePerGas 2).bind fun s₁ =>
    (sliceFrom tx.MaxFeePerGas 2).bind fun s₂ =>
      let maxPriorityFee := (SetString s₁ 16).1
      let maxFee := (SetString s₂ 16).1
      let effectiveFee := maxFee - baseFee
      .done (if effectiveFee > maxPriorityFee then maxPriorityFee else effectiveFee)
  else
    (sliceFrom tx.GasPrice 2).bind fun s =>
      let gasPrice := (SetString s 16).1
      .done (gasPrice - baseFee)

/-- The loop over `block.Transactions`, carrying `totalPriorityFees`. -/
def sumPriorityFees (baseFee : Int) : List Transaction → Int → Exec Int
  | [], totalPriorityFees => .done totalPriorityFees
  | tx :: rest, totalPriorityFees =>
    (txPriorityFee baseFee tx).bind fun priorityFee =>
      if priorityFee > 0 then
        (sliceFrom tx.Gas 2).bind fun s =>
          let gas := (SetString s 16).1
          sumPriorityFees baseFee rest (totalPriorityFees + priorityFee * gas)
      else sumPriorityFees baseFee rest totalPriorityFees

/-- The function `CalculateBlockReward(block *Block) (uint64, error)`.  The argument is a
pointer, `none` being nil; the result pairs the reward with the returned error
(`none` being a nil error).  `big.Int.Div` is Euclidean division. -/
def CalculateBlockReward (block : Option Block) : Exec (Nat × Option String) :=
  match block with
  | none => .crash
  | some block =>
    (sliceFrom block.BaseFeePerGas 2).bind fun s₁ =>
    let baseFee := (SetString s₁ 16).1
    (sliceFrom block.GasUsed 2).bind fun s₂ =>
    let gasUsed := (SetString s₂ 16).1
    let baseFeeReward := baseFee * gasUsed
    (sumPriorityFees baseFee block.Transactions 0).bind fun totalPriorityFees =>
    let totalReward := baseFeeReward + totalPriorityFees
    let gwei := Int.ediv totalReward 1000000000
    .done (Uint64 gwei, none)

/-! ## Well-formed hex quantities and the reward formula of the specification -/

/-- A hexadecimal digit: `0-9`, `a-f` or `A-F`. -/
def isHexDigit (c : Char) : Bool :=
  (48 ≤ c.toNat && c.toNat ≤ 57) || (97 ≤ c.toNat && c.toNat ≤ 102) ||
    (65 ≤ c.toNat && c.toNat ≤ 70)

/-- A well-formed quantity: `0x` followed by at least one hex digit. -/
def isHexQuantity (s : String) : Bool :=
  match s.data with
  | '0' :: 'x' :: d :: ds => (d :: ds).all isHexDigit
  | _ => false

/-- Value of a hexadecimal digit. -/
def hexDigitValue (c : Char) : Nat :=
  if c.toNat ≤ 57 then c.toNat - 48
  else if c.toNat ≤ 70 then c.toNat - 55
  else c.toNat - 87

/-- The unsigned integer a quantity denotes: its digits after `0x`, big-endian. -/
def hexValue (s : String) : Int :=
  (((s.data.drop 2).foldl (fun acc c => acc * 16 + hexDigitValue c) 0 : Nat) : Int)

/-- The fields `CalculateBlockReward` reads from a transaction are well formed:
the two EIP-1559 fee caps when `maxPriorityFeePerGas` is present, `gasPrice`
otherwise, and `gas`. -/
def txWellFormed (tx : Transaction) : Bool :=
  (if tx.MaxPriorityFeePerGas ≠ "" then
      isHexQuantity tx.MaxPriorityFeePerGas && isHexQuantity tx.MaxFeePerGas
    else isHexQuantity tx.GasPrice) && isHexQuantity tx.Gas

/-- The priority fee `p_i` of the specification, in unbounded signed integers. -/
def priorityFeeSpec (baseFee : Int) (tx : Transaction) : Int :=
  if tx.MaxPriorityFeePerGas ≠ "" then
    min (hexValue tx.MaxPriorityFeePerGas) (hexValue tx.MaxFeePerGas - baseFee)
  else hexValue tx.GasPrice - baseFee

/-- The total reward in wei of the specification:
`baseFee * gasUsed + Σ max(0, p_i) * gas_i`. -/
def totalRewardSpec (block : Block) : Int :=
  hexValue block.BaseFeePerGas * hexValue block.GasUsed +
    (block.Transactions.map fun tx =>
      max 0 (priorityFeeSpec (hexValue block.BaseFeePerGas) tx) * hexValue tx.Gas).sum

/-- The reward in GWEI of the specification: the total divided by
`1_000_000_000`, rounded down. -/
def rewardSpec (block : Block) : Int :=
  Int.fdiv (totalRewardSpec block) 1000000000

/-- The legacy-transaction example of the specification. -/
def legacyExample : Block :=
  { BaseFeePerGas := "0x3b9aca00", GasUsed := "0x5208",
    Transactions := [{ GasPrice := "0x77359400", Gas := "0x5208" }] }

/-! ## `strconv` and `strings` -/

/-- The two errors `strconv.ParseUint` reports. -/
inductive NumError where
  | ErrSyntax
  | ErrRange
  deriving DecidableEq

/-- The digit loop of `strconv.ParseUint(s, 10, 64)`, carrying `n`.  A byte
that is no decimal digit (a letter has digit value at least 10, the base) is a
syntax error; `n >= cutoff` with `cutoff = maxUint64/10 + 1`, or a wrapped
addition, is a range error returning `maxVal`. -/
def parseUintLoop : List Char → Nat → Nat × Option NumError
  | [], n => (n, none)
  | c :: cs, n =>
    if 48 ≤ c.toNat ∧ c.toNat ≤ 57 then
      let d := c.toNat - 48
      if n ≥ (2 ^ 64 - 1) / 10 + 1 then (2 ^ 64 - 1, some .ErrRange)
      else
        let n := n * 10 % 2 ^ 64
        let n1 := (n + d) % 2 ^ 64
        if n1 < n ∨ n1 > 2 ^ 64 - 1 then (2 ^ 64 - 1, some .ErrRange)
        else parseUintLoop cs n1
    else (0, some .ErrSyntax)

/-- The call `strconv.ParseUint(s, 10, 64)`: the value and the error (`none` being nil). -/
def ParseUint (s : String) : Nat × Option NumError :=
  if s = "" then (0, some .ErrSyntax) else parseUintLoop s.data 0

/-- The call `strings.Contains(s, substr)`: `substr` occurs at some offset of `s`. -/
def Contains (s substr : String) : Bool :=
  s.data.tails.any fun t => substr.data.isPrefixOf t

/-- The call `strings.HasPrefix(s, "0x")`. -/
def has0x (s : String) : Bool :=
  "0x".data.isPrefixOf s.data

/-- The function `strings.ToLower`.  Its first loop looks for a byte from `0x80`
on (`utf8.RuneSelf`).  Without one the string is ASCII: it is returned as it is
when it has no byte `A`..`Z`, and otherwise with the bytes `A`..`Z` moved to
`a`..`z` (`c += 'a' - 'A'`) and every other byte kept.  With one the result is
`strings.Map(unicode.ToLower, s)`, the parameter `mapUnicodeLower`. -/
def ToLower (mapUnicodeLower : String → String) (s : String) : String :=
  if s.data.all (fun c => c.toNat < 128) then
    if s.data.any (fun c => 65 ≤ c.toNat ∧ c.toNat ≤ 90) then
      ⟨s.data.map fun c =>
        if 65 ≤ c.toNat ∧ c.toNat ≤ 90 then Char.ofNat (c.toNat + 32) else c⟩
    else s
  else mapUnicodeLower s

/-! ## Upstream data and the client (`ethereum/client.go`) -/

/-- The fields of `BeaconBlock` (`Data.Message...`) the program reads. -/
structure BeaconBlock where
  Slot : String := ""
  ProposerIndex : String := ""
  FeeRecipient : String := ""
  BlockNumber : String := ""
  deriving DecidableEq

/-- The one field of `ValidatorResponse`: `Data.Validator.WithdrawalCredentials`. -/
structure ValidatorResponse where
  WithdrawalCredentials : String := ""
  deriving DecidableEq

/-- The one field of `SyncCommittee`: `Data.Validators`. -/
structure SyncCommittee where
  Validators : List String := []
  deriving DecidableEq

/-- The decoded JSON-RPC envelope of `GetExecutionBlock`: `result` (a pointer,
`none` for JSON null or absent) and the message of `error` when present. -/
structure RpcEnvelope where
  Result : Option Block := none
  Error : Option String := none
  deriving DecidableEq

/-- What one HTTP exchange hands to the client code: the transport fails with an
error, or a response arrives with a status code and a body that the JSON
decoder either rejects with an error or decodes to a value. -/
inductive HttpReply (α : Type) where
  | failed (err : String)
  | response (statusCode : Nat) (body : Except String α)

/-- An upstream request, as the client issues it. -/
inductive Request where
  | headersHead
  | blocks (slot : Nat)
  | validators (index : String)
  | getBlockByNumber (blockNumber : String)
  | syncCommittees (stateSlot : Nat)
  deriving DecidableEq

/-- The client, with the behaviour of its `httpClient` against the configured
origin made explicit: the reply to each request the program can issue (for
`headersHead` the body is the decoded `data.header.message.slot`). -/
structure Client where
  headersHead : HttpReply String
  blocks : Nat → HttpReply BeaconBlock
  validators : String → HttpReply ValidatorResponse
  getBlockByNumber : String → HttpReply RpcEnvelope
  syncCommittees : Nat → HttpReply SyncCommittee

/-- The method `Client.GetCurrentSlot`: the head slot is parsed in base 10 without
a check and cut to its low 64 bits. -/
def GetCurrentSlot (c : Client) : Nat × Option String :=
  match c.headersHead with
  | .failed err => (0, some err)
  | .response _ (.error err) => (0, some err)
  | .response _ (.ok slot) => (Uint64 (SetString slot 10).1, none)

/-- The method `Client.GetBeaconBlock`: status 404 becomes the error
`block not found`. -/
def GetBeaconBlock (c : Client) (slot : Nat) : Option BeaconBlock × Option String :=
  match c.blocks slot with
  | .failed err => (none, some err)
  | .response statusCode body =>
    if statusCode = 404 then (none, some "block not found")
    else match body with
      | .error err => (none, some err)
      | .ok block => (some block, none)

/-- The method `Client.GetValidator`. -/
def GetValidator (c : Client) (index : String) : Option ValidatorResponse × Option String :=
  match c.validators index with
  | .failed err => (none, some err)
  | .response _ (.error err) => (none, some err)
  | .response _ (.ok validator) => (some validator, none)

/-- The method `Client.GetExecutionBlock` (marshalling the fixed request cannot fail). -/
def GetExecutionBlock (c : Client) (blockNumber : String) : Option Block × Option String :=
  match c.getBlockByNumber blockNumber with
  | .failed err => (none, some err)
  | .response _ (.error err) => (none, some err)
  | .response _ (.ok result) =>
    match result.Error with
    | some message => (none, some ("RPC error: " ++ message))
    | none => (result.Result, none)

/-- The state slot `GetSyncCommittee` requests, in `uint64` arithmetic:
`epoch := slot / 32; syncPeriod := epoch / 256; stateSlot := syncPeriod * 256 * 32`. -/
def stateSlot (slot : Nat) : Nat :=
  let epoch := slot / 32
  let syncPeriod := epoch / 256
  (syncPeriod * 256 % 2 ^ 64) * 32 % 2 ^ 64

/-- The method `Client.GetSyncCommittee`: status 404 becomes the error
`sync committee not found`. -/
def GetSyncCommittee (c : Client) (slot : Nat) : Option SyncCommittee × Option String :=
  match c.syncCommittees (stateSlot slot) with
  | .failed err => (none, some err)
  | .response statusCode body =>
    if statusCode = 404 then (none, some "sync committee not found")
    else match body with
      | .error err => (none, some err)
      | .ok committee => (some committee, none)

/-! ## The handlers (`handlers/handlers.go`) -/

/-- The JSON body a handler writes. -/
inductive Body where
  | errorResponse (Error : String) (Code : Nat)
  | blockRewardResponse (Status : String) (Reward : Nat)
  | pubkeys (keys : List String)
  deriving DecidableEq

/-- A call `c.JSON(status, body)`. -/
structure Response where
  status : Nat
  body : Body
  deriving DecidableEq

/-- One run of a handler: the upstream requests it issued, in order, and the
response it wrote, unless it stopped with a panic. -/
structure Run where
  requests : List Request
  result : Exec Response
  deriving DecidableEq

/-- The struct `Handler`: `client` is a pointer, `none` being nil. -/
structure Handler where
  client : Option Client

/-- The body `ErrorResponse` with its status, as every failure path writes it. -/
def errorJSON (status : Nat) (msg : String) : Response :=
  ⟨status, .errorResponse msg status⟩

/-- The MEV classification of `GetBlockReward` ("Determine MEV status"), from the
beacon block's fee recipient and the validator's withdrawal credentials. -/
def mevStatus (mapUnicodeLower : String → String)
    (feeRecipientRaw withdrawalCreds : String) : Exec String :=
  let status := "VANILLA"
  let feeRecipient := ToLower mapUnicodeLower feeRecipientRaw
  if withdrawalCreds.data.length ≥ 42 then
    (sliceLast withdrawalCreds 40).bind fun last =>
      let withdrawalAddress := "0x" ++ last
      if ToLower mapUnicodeLower withdrawalAddress ≠ feeRecipient then .done "MEV"
      else .done status
  else .done status

/-- The handler `Handler.GetBlockReward` on the path parameter `slot`.  Each
`match` follows one `if err != nil` of the source, in order.  The run panics
where the source dereferences a nil pointer: the nil client in the first
upstream call, and the nil execution block inside `CalculateBlockReward`.
The first argument is the Unicode branch of `strings.ToLower`. -/
def GetBlockReward (mapUnicodeLower : String → String) (h : Handler) (slotStr : String) :
    Run :=
  match ParseUint slotStr with
  | (_, some _) => ⟨[], .done (errorJSON 400 "Invalid slot number")⟩
  | (slot, none) =>
  match h.client with
  | none => ⟨[], .crash⟩
  | some c =>
  let reqs₁ := [Request.headersHead]
  match GetCurrentSlot c with
  | (_, some _) => ⟨reqs₁, .done (errorJSON 500 "Failed to get current slot")⟩
  | (currentSlot, none) =>
  if slot > currentSlot then ⟨reqs₁, .done (errorJSON 400 "Slot is in the future")⟩
  else
  let reqs₂ := reqs₁ ++ [Request.blocks slot]
  match GetBeaconBlock c slot with
  | (_, some err) =>
    if Contains err "not found" then ⟨reqs₂, .done (errorJSON 404 "Block not found for slot")⟩
    else ⟨reqs₂, .done (errorJSON 500 "Failed to get beacon block")⟩
  | (none, none) => ⟨reqs₂, .crash⟩
  | (some beaconBlock, none) =>
  let reqs₃ := reqs₂ ++ [Request.getBlockByNumber beaconBlock.BlockNumber]
  match GetExecutionBlock c beaconBlock.BlockNumber with
  | (executionBlock, some err) =>
    if Contains err "not found" || err == "RPC error: Block not found"
        || executionBlock.isNone then
      ⟨reqs₃, .done (errorJSON 404 "Execution block not found")⟩
    else ⟨reqs₃, .done (errorJSON 500 "Failed to get execution block")⟩
  | (executionBlock, none) =>
  let reqs₄ := reqs₃ ++ [Request.validators beaconBlock.ProposerIndex]
  match GetValidator c beaconBlock.ProposerIndex with
  | (_, some _) => ⟨reqs₄, .done (errorJSON 500 "Failed to get validator data")⟩
  | (none, none) => ⟨reqs₄, .crash⟩
  | (some validator, none) =>
  match mevStatus mapUnicodeLower beaconBlock.FeeRecipient
      validator.WithdrawalCredentials with
  | .crash => ⟨reqs₄, .crash⟩
  | .done status =>
  match CalculateBlockReward executionBlock with
  | .crash => ⟨reqs₄, .crash⟩
  | .done (_, some _) => ⟨reqs₄, .done (errorJSON 500 "Failed to calculate block reward")⟩
  | .done (reward, none) => ⟨reqs₄, .done ⟨200, .blockRewardResponse status reward⟩⟩

/-- The loop `for i, v := range validators` of `GetSyncDuties`, from index `i`
with `n` iterations left: an entry without the `0x` prefix is overwritten in
place with the prefixed one. -/
def ensure0xLoop : Nat → Nat → List String → List String
  | 0, _, validators => validators
  | n + 1, i, validators =>
    match validators[i]? with
    | none => validators
    | some v =>
      if !has0x v then ensure0xLoop n (i + 1) (validators.set i ("0x" ++ v))
      else ensure0xLoop n (i + 1) validators

/-- The placeholder list `mockPubkeys` of `GetSyncDuties`. -/
def mockPubkeys : List String :=
  ["0x93247f2209abcacf57b75a51dafae777f9dd38bc7053d1af526f220a7489a6d3a2753e5f3e8b1cfe39b56f43611df74a",
   "0xa572cbea904d67468808c8eb50a9450c9721db309128012543902d0ac358a62ae28f75bb8f1c7c42c39a8c5529bf0f4e",
   "0x89ece308f9d1f0131765212deca99697b112d61f9be9a5f1f3780a51335b3ff981747a0b2ca2179b96d2c0c9024e5224"]

/-- The tail of `GetSyncDuties` after a successful fetch: keep the first 512
validators, then give every entry the `0x` prefix. -/
def syncDutiesKeys (validators : List String) : List String :=
  let validators := if validators.length > 512 then validators.take 512 else validators
  ensure0xLoop validators.length 0 validators

/-- The handler `Handler.GetSyncDuties` on the path parameter `slot`;
`currentSlot+32` is a `uint64` addition. -/
def GetSyncDuties (h : Handler) (slotStr : String) : Run :=
  match ParseUint slotStr with
  | (_, some _) => ⟨[], .done (errorJSON 400 "Invalid slot number")⟩
  | (slot, none) =>
  match h.client with
  | none => ⟨[], .crash⟩
  | some c =>
  let reqs₁ := [Request.headersHead]
  match GetCurrentSlot c with
  | (_, some _) => ⟨reqs₁, .done (errorJSON 500 "Failed to get current slot")⟩
  | (currentSlot, none) =>
  if slot > (currentSlot + 32) % 2 ^ 64 then
    ⟨reqs₁, .done (errorJSON 400 "Slot is too far in the future")⟩
  else
  let reqs₂ := reqs₁ ++ [Request.syncCommittees (stateSlot slot)]
  match GetSyncCommittee c slot with
  | (_, some err) =>
    if Contains err "not found" then ⟨reqs₂, .done ⟨200, .pubkeys mockPubkeys⟩⟩
    else ⟨reqs₂, .done (errorJSON 500 "Failed to get sync committee data")⟩
  | (none, none) => ⟨reqs₂, .crash⟩
  | (some syncCommittee, none) =>
    ⟨reqs₂, .done ⟨200, .pubkeys (syncDutiesKeys syncCommittee.Validators)⟩⟩

/-! ## Classification and normalisation as the specification words them -/

/-- The last `k` characters of `s` (all of `s` when it is shorter). -/
def lastChars (s : String) (k : Nat) : String :=
  ⟨(s.data.reverse.take k).reverse⟩

/-- Lower case as the specification means it: in ASCII text every character is
replaced by its lower-case character; text with a byte from `0x80` on is
lower-cased by the Unicode mapping. -/
def lowercaseSpec (mapUnicodeLower : String → String) (s : String) : String :=
  if ∀ c ∈ s.data, c.toNat < 128 then String.mk (s.data.map Char.toLower)
  else mapUnicodeLower s

/-- The status of the specification: `VANILLA` for a credential shorter than 42
characters; otherwise `VANILLA` exactly when `0x` followed by the last 40
characters of the credential equals the fee recipient, both in lower case. -/
def statusSpec (mapUnicodeLower : String → String) (f w : String) : String :=
  if w.length < 42 then "VANILLA"
  else if lowercaseSpec mapUnicodeLower ("0x" ++ lastChars w 40)
      = lowercaseSpec mapUnicodeLower f then "VANILLA"
  else "MEV"

/-- A stand-in for the Unicode branch of `strings.ToLower` in the examples, whose
strings are ASCII and never reach it. -/
def keepBytes : String → String := fun s => s

/-- The string starts with `0x`. -/
def startsWith0x (s : String) : Bool :=
  match s.data with
  | '0' :: 'x' :: _ => true
  | _ => false

/-- A public key as the specification normalises it: kept when it starts with
`0x`, prefixed with `0x` otherwise. -/
def normalizeKey (v : String) : String :=
  if startsWith0x v then v else "0x" ++ v

/-- A decimal digit. -/
def isDecimalDigit (c : Char) : Bool :=
  48 ≤ c.toNat && c.toNat ≤ 57

/-- The number a string of decimal digits denotes. -/
def decimalValue (s : String) : Nat :=
  s.data.foldl (fun acc c => acc * 10 + (c.toNat - 48)) 0

/-- The string is a base-10 unsigned integer representable in 64 bits: at least
one character, decimal digits only, value below `2^64`. -/
def isDecimalUint64 (s : String) : Bool :=
  !s.data.isEmpty && s.data.all isDecimalDigit && decide (decimalValue s < 2 ^ 64)

/-- A client whose upstream answers every request of a block-reward lookup: head
slot 100, a beacon block proposed by validator 7 with execution block `0x10`,
that execution block (the legacy example), and the validator's credentials. -/
def exampleClient : Client where
  headersHead := .response 200 (.ok "100")
  blocks := fun _ => .response 200 (.ok
    { Slot := "50", ProposerIndex := "7",
      FeeRecipient := "0xAbCdEf0123456789abcdef0123456789abcdef01", BlockNumber := "0x10" })
  validators := fun _ => .response 200 (.ok
    ⟨"0x010000000000000000000000abcdef0123456789abcdef0123456789ABCDEF01"⟩)
  getBlockByNumber := fun _ => .response 200 (.ok { Result := some legacyExample })
  syncCommittees := fun _ => .response 200 (.ok ⟨["0xab", "cd"]⟩)

/-- The client `c` with the reply to `eth_getBlockByNumber` replaced by `r`. -/
def withRpc (c : Client) (r : HttpReply RpcEnvelope) : Client :=
  { c with getBlockByNumber := fun _ => r }

/-- The client `c` with the head slot the beacon node reports replaced by `slot`. -/
def withHead (c : Client) (slot : String) : Client :=
  { c with headersHead := .response 200 (.ok slot) }

/-- The JSON-RPC envelope `{"result": null}`, with no `error` member. -/
def nullResult : RpcEnvelope := { Result := none, Error := none }

/-- The client `c` with the reply to every sync-committee request replaced by `r`. -/
def withSyncCommittees (c : Client) (r : HttpReply SyncCommittee) : Client :=
  { c with syncCommittees := fun _ => r }

/-! ## Lemmas on parsing -/

theorem bind_done {α β : Type} (a : α) (f : α → Exec β) : (Exec.done a).bind f = f a := rfl

theorem digitVal_of_isHexDigit {c : Char} (h : isHexDigit c = true) :
    digitVal c = hexDigitValue c ∧ digitVal c < 16 := by
  simp only [isHexDigit, Bool.or_eq_true, Bool.and_eq_true, decide_eq_true_eq] at h
  unfold digitVal hexDigitValue
  split_ifs <;> omega

theorem scanDigits_of_all_hex (ds : List Char) (h : ds.all isHexDigit = true) (acc count : Nat) :
    scanDigits 16 ds acc count =
      (ds.foldl (fun acc c => acc * 16 + hexDigitValue c) acc, count + ds.length, []) := by
  induction ds generalizing acc count with
  | nil => simp [scanDigits]
  | cons c cs ih =>
    simp only [List.all_cons, Bool.and_eq_true] at h
    obtain ⟨hv, hlt⟩ := digitVal_of_isHexDigit h.1
    simp only [scanDigits, ge_iff_le, List.foldl_cons, List.length_cons]
    rw [if_neg (by omega), ih h.2, hv]
    simp only [Prod.mk.injEq, and_true, true_and]
    omega

theorem not_sign_of_isHexDigit {c : Char} (h : isHexDigit c = true) :
    c ≠ '+' ∧ c ≠ '-' := by
  constructor <;>
  · rintro rfl
    revert h; decide

/-- On a well-formed quantity the slice `s[2:]` is in bounds and `SetString`
succeeds with the value the quantity denotes. -/
theorem parse_of_isHexQuantity {s : String} (h : isHexQuantity s = true) :
    sliceFrom s 2 = .done ⟨s.data.drop 2⟩ ∧
      SetString ⟨s.data.drop 2⟩ 16 = (hexValue s, true) := by
  unfold isHexQuantity at h
  split at h
  · rename_i d ds hs
    have hall := h
    simp only [List.all_cons, Bool.and_eq_true] at h
    obtain ⟨hs1, hs2⟩ := not_sign_of_isHexDigit h.1
    refine ⟨by simp [sliceFrom, hs], ?_⟩
    have hscan := scanDigits_of_all_hex (d :: ds) hall 0 0
    simp [SetString, hexValue, hs, hs1, hs2, hscan]
  · exact absurd h (by simp)

theorem txPriorityFee_of_wellFormed (baseFee : Int) {tx : Transaction}
    (h : txWellFormed tx = true) :
    txPriorityFee baseFee tx = .done (priorityFeeSpec baseFee tx) := by
  unfold txWellFormed at h
  unfold txPriorityFee priorityFeeSpec
  by_cases hp : tx.MaxPriorityFeePerGas ≠ ""
  · rw [if_pos hp] at h ⊢
    rw [if_pos hp]
    simp only [Bool.and_eq_true] at h
    obtain ⟨s1, p1⟩ := parse_of_isHexQuantity h.1.1
    obtain ⟨s2, p2⟩ := parse_of_isHexQuantity h.1.2
    rw [s1, bind_done, s2, bind_done]
    simp only [p1, p2]
    congr 1
    rcases le_or_lt (hexValue tx.MaxFeePerGas - baseFee) (hexValue tx.MaxPriorityFeePerGas)
      with hle | hlt
    · rw [if_neg (not_lt.mpr hle), min_eq_right hle]
    · rw [if_pos hlt, min_eq_left hlt.le]
  · rw [if_neg hp] at h ⊢
    rw [if_neg hp]
    simp only [Bool.and_eq_true] at h
    obtain ⟨s1, p1⟩ := parse_of_isHexQuantity h.1
    rw [s1, bind_done]
    simp only [p1]

theorem sumPriorityFees_of_wellFormed (baseFee : Int) (txs : List Transaction)
    (h : ∀ tx ∈ txs, txWellFormed tx = true) (total : Int) :
    sumPriorityFees baseFee txs total =
      .done (total + (txs.map fun tx => max 0 (priorityFeeSpec baseFee tx) * hexValue tx.Gas).sum) := by
  induction txs generalizing total with
  | nil => simp [sumPriorityFees]
  | cons tx rest ih =>
    have htx := h tx (List.mem_cons_self _ _)
    have hrest : ∀ t ∈ rest, txWellFormed t = true := fun t ht => h t (List.mem_cons_of_mem _ ht)
    have hgas : isHexQuantity tx.Gas = true := by
      unfold txWellFormed at htx
      simp only [Bool.and_eq_true] at htx
      exact htx.2
    obtain ⟨s1, p1⟩ := parse_of_isHexQuantity hgas
    rw [sumPriorityFees, txPriorityFee_of_wellFormed baseFee htx, bind_done]
    by_cases hpos : priorityFeeSpec baseFee tx > 0
    · rw [if_pos hpos, s1, bind_done]
      simp only [p1]
      rw [ih hrest, List.map_cons, List.sum_cons, max_eq_right hpos.le, add_assoc]
    · rw [if_neg hpos, ih hrest, List.map_cons, List.sum_cons, max_eq_left (not_lt.mp hpos)]
      simp

theorem hexValue_nonneg (s : String) : 0 ≤ hexValue s := by
  unfold hexValue
  exact Int.natCast_nonneg _

theorem totalRewardSpec_nonneg (block : Block) : 0 ≤ totalRewardSpec block := by
  unfold totalRewardSpec
  apply add_nonneg (mul_nonneg (hexValue_nonneg _) (hexValue_nonneg _))
  apply List.sum_nonneg
  intro x hx
  obtain ⟨tx, -, rfl⟩ := List.mem_map.mp hx
  exact mul_nonneg (le_max_left _ _) (hexValue_nonneg _)

/-- C1. On a block whose base fee, gas used and every fee and gas field read from
its transactions are `0x` followed by at least one hex digit, and whose reward
fits in 64 bits, `CalculateBlockReward` returns, with a nil error, the reward
`floor((baseFee * gasUsed + Σ max(0, p_i) * gas_i) / 1_000_000_000)`. -/
theorem CalculateBlockReward_of_wellFormed (block : Block)
    (hBase : isHexQuantity block.BaseFeePerGas = true)
    (hGas : isHexQuantity block.GasUsed = true)
    (hTxs : ∀ tx ∈ block.Transactions, txWellFormed tx = true)
    (hFits : rewardSpec block < 2 ^ 64) :
    CalculateBlockReward (some block) = .done ((rewardSpec block).toNat, none) := by
  obtain ⟨s1, p1⟩ := parse_of_isHexQuantity hBase
  obtain ⟨s2, p2⟩ := parse_of_isHexQuantity hGas
  have hdiv : rewardSpec block = Int.ediv (totalRewardSpec block) 1000000000 :=
    Int.fdiv_eq_ediv _ (by norm_num)
  have hnn : 0 ≤ rewardSpec block := by
    rw [hdiv]
    exact Int.ediv_nonneg (totalRewardSpec_nonneg block) (by norm_num)
  simp only [CalculateBlockReward]
  rw [s1, bind_done, s2, bind_done]
  simp only [p1, p2]
  rw [sumPriorityFees_of_wellFormed _ _ hTxs, bind_done, zero_add]
  have htot : hexValue block.BaseFeePerGas * hexValue block.GasUsed +
      (block.Transactions.map fun tx =>
        max 0 (priorityFeeSpec (hexValue block.BaseFeePerGas) tx) * hexValue tx.Gas).sum
      = totalRewardSpec block := rfl
  rw [htot, ← hdiv]
  congr 2
  unfold Uint64
  have h1 : (rewardSpec block).natAbs = (rewardSpec block).toNat := by omega
  rw [h1]
  apply Nat.mod_eq_of_lt
  omega

/-- The legacy-transaction example of the specification yields 42000 GWEI. -/
theorem CalculateBlockReward_of_wellFormed_witness :
    CalculateBlockReward (some legacyExample) = .done (42000, none) :=
  CalculateBlockReward_of_wellFormed legacyExample (by decide) (by decide) (by decide)
    (by decide)

/-! ## Malformed quantities -/

theorem CalculateBlockReward_error_nil (block : Option Block) :
    CalculateBlockReward block = .crash ∨
      ∃ reward, CalculateBlockReward block = .done (reward, none) := by
  cases block with
  | none => exact Or.inl rfl
  | some block =>
    simp only [CalculateBlockReward]
    cases sliceFrom block.BaseFeePerGas 2 with
    | crash => exact Or.inl rfl
    | done s₁ =>
      cases sliceFrom block.GasUsed 2 with
      | crash => exact Or.inl rfl
      | done s₂ =>
        simp only [bind_done]
        cases sumPriorityFees (SetString s₁ 16).1 block.Transactions 0 with
        | crash => exact Or.inl rfl
        | done total => exact Or.inr ⟨_, rfl⟩

/-- C2. `CalculateBlockReward` does not reject malformed quantities: on an empty
`baseFeePerGas` it panics, on a `gasUsed` of `0x` alone it returns the reward
computed with the field taken as zero, and on no block at all does it return a
non-nil error. -/
theorem CalculateBlockReward_malformed_not_rejected :
    isHexQuantity "" = false ∧
    CalculateBlockReward (some { BaseFeePerGas := "", GasUsed := "0x5208" }) = .crash ∧
    isHexQuantity "0x" = false ∧
    CalculateBlockReward (some { BaseFeePerGas := "0x3b9aca00", GasUsed := "0x" })
      = .done (0, none) ∧
    ∀ block : Option Block, CalculateBlockReward block = .crash ∨
      ∃ reward, CalculateBlockReward block = .done (reward, none) :=
  ⟨by decide, by decide, by decide, by decide, CalculateBlockReward_error_nil⟩

/-! ## MEV classification -/

theorem drop_length_sub_eq_lastChars (l : List Char) (k : Nat) :
    l.drop (l.length - k) = (l.reverse.take k).reverse :=
  List.rtake_eq_reverse_take_reverse l k

theorem ToLower_eq_lowercaseSpec (u : String → String) (s : String) :
    ToLower u s = lowercaseSpec u s := by
  unfold ToLower lowercaseSpec
  by_cases hascii : ∀ c ∈ s.data, c.toNat < 128
  · have hall : (s.data.all fun c => decide (c.toNat < 128)) = true := by
      simpa [List.all_eq_true] using hascii
    rw [if_pos hall, if_pos hascii]
    have hfold : ∀ c : Char,
        (if 65 ≤ c.toNat ∧ c.toNat ≤ 90 then Char.ofNat (c.toNat + 32) else c)
          = Char.toLower c := fun c => rfl
    by_cases hup : (s.data.any fun c => decide (65 ≤ c.toNat ∧ c.toNat ≤ 90)) = true
    · rw [if_pos hup]
      simp only [hfold]
    · rw [if_neg hup]
      have hkeep : s.data.map Char.toLower = s.data := by
        have hnone : ∀ c ∈ s.data, Char.toLower c = c := by
          intro c hc
          have hnot : ¬ (65 ≤ c.toNat ∧ c.toNat ≤ 90) := by
            intro hcu
            exact hup (List.any_eq_true.mpr ⟨c, hc, by simpa using hcu⟩)
          rw [← hfold c, if_neg hnot]
        calc s.data.map Char.toLower = s.data.map id := List.map_congr_left hnone
          _ = s.data := List.map_id _
      rw [hkeep]
  · have hall : ¬ (s.data.all fun c => decide (c.toNat < 128)) = true := by
      simpa [List.all_eq_true] using hascii
    rw [if_neg hall, if_neg hascii]

theorem mevStatus_eq_statusSpec (u : String → String) (f w : String) :
    mevStatus u f w = .done (statusSpec u f w) := by
  unfold mevStatus statusSpec sliceLast lastChars
  simp only [String.length, ToLower_eq_lowercaseSpec]
  by_cases hlen : w.data.length ≥ 42
  · have h40 : 40 ≤ w.data.length := by omega
    rw [if_pos hlen, if_pos h40, bind_done, if_neg (show ¬ w.data.length < 42 by omega),
      drop_length_sub_eq_lastChars]
    by_cases heq : lowercaseSpec u ("0x" ++ ⟨(w.data.reverse.take 40).reverse⟩)
        = lowercaseSpec u f
    · rw [if_neg (not_not.mpr heq), if_pos heq]
    · rw [if_pos heq, if_neg heq]
  · rw [if_neg hlen, if_pos (show w.data.length < 42 by omega)]

theorem statusSpec_values (u : String → String) (f w : String) :
    statusSpec u f w = "VANILLA" ∨ statusSpec u f w = "MEV" := by
  unfold statusSpec
  split_ifs <;> simp

/-- C3. For every fee recipient `f` and withdrawal credential `w` (and whatever
the Unicode branch of `strings.ToLower` returns), the classification of
`GetBlockReward` finishes (the slice of the last 40 characters cannot panic)
with `VANILLA` when `w` has fewer than 42 characters, and otherwise with
`VANILLA` exactly when `0x` followed by the last 40 characters of `w` equals `f`
in lower case and `MEV` if not; it is never another value; and a lookup whose
fetches all succeed answers 200 with that status. -/
theorem GetBlockReward_status (mapUnicodeLower : String → String) (f w : String) :
    mevStatus mapUnicodeLower f w = .done (statusSpec mapUnicodeLower f w) ∧
    (w.length < 42 → statusSpec mapUnicodeLower f w = "VANILLA") ∧
    (42 ≤ w.length →
      (statusSpec mapUnicodeLower f w = "VANILLA" ↔
        lowercaseSpec mapUnicodeLower ("0x" ++ lastChars w 40)
          = lowercaseSpec mapUnicodeLower f) ∧
      (statusSpec mapUnicodeLower f w = "MEV" ↔
        lowercaseSpec mapUnicodeLower ("0x" ++ lastChars w 40)
          ≠ lowercaseSpec mapUnicodeLower f)) ∧
    (statusSpec mapUnicodeLower f w = "VANILLA" ∨ statusSpec mapUnicodeLower f w = "MEV") ∧
    ∀ (c : Client) (slotStr : String) (slot currentSlot : Nat) (beaconBlock : BeaconBlock)
      (executionBlock : Option Block) (reward : Nat),
      ParseUint slotStr = (slot, none) →
      GetCurrentSlot c = (currentSlot, none) →
      slot ≤ currentSlot →
      GetBeaconBlock c slot = (some beaconBlock, none) →
      beaconBlock.FeeRecipient = f →
      GetExecutionBlock c beaconBlock.BlockNumber = (executionBlock, none) →
      GetValidator c beaconBlock.ProposerIndex = (some ⟨w⟩, none) →
      CalculateBlockReward executionBlock = .done (reward, none) →
      (GetBlockReward mapUnicodeLower ⟨some c⟩ slotStr).result
        = .done ⟨200, .blockRewardResponse (statusSpec mapUnicodeLower f w) reward⟩ := by
  refine ⟨mevStatus_eq_statusSpec mapUnicodeLower f w, ?_, ?_,
    statusSpec_values mapUnicodeLower f w, ?_⟩
  · intro h
    unfold statusSpec
    rw [if_pos h]
  · intro h
    unfold statusSpec
    rw [if_neg (show ¬ w.length < 42 by omega)]
    by_cases heq : lowercaseSpec mapUnicodeLower ("0x" ++ lastChars w 40)
        = lowercaseSpec mapUnicodeLower f
    · rw [if_pos heq]
      simp [heq]
    · rw [if_neg heq]
      simp [heq]
  · intro c slotStr slot currentSlot beaconBlock executionBlock reward hp hc hle hb hf he hv hr
    subst hf
    simp only [GetBlockReward, hp, hc, hb, he, hv, hr, mevStatus_eq_statusSpec,
      if_neg (not_lt.mpr hle)]

/-- A lookup of slot 50 against `exampleClient`: the credential carries the fee
recipient's address in another letter case, so the answer is `VANILLA` with the
reward of 42000 GWEI; a fee recipient that differs in its last digit is
classified `MEV`. -/
theorem GetBlockReward_status_witness :
    (GetBlockReward keepBytes ⟨some exampleClient⟩ "50").result
      = .done ⟨200, .blockRewardResponse "VANILLA" 42000⟩ ∧
    mevStatus keepBytes "0xAbCdEf0123456789abcdef0123456789abcdef02"
        "0x010000000000000000000000abcdef0123456789abcdef0123456789ABCDEF01"
      = .done "MEV" :=
  ⟨(GetBlockReward_status keepBytes "0xAbCdEf0123456789abcdef0123456789abcdef01"
      "0x010000000000000000000000abcdef0123456789abcdef0123456789ABCDEF01").2.2.2.2
      exampleClient "50" 50 100 _ (some legacyExample) 42000
      (by decide) (by decide) (by decide) rfl rfl rfl rfl (by decide),
    (GetBlockReward_status keepBytes "0xAbCdEf0123456789abcdef0123456789abcdef02"
      "0x010000000000000000000000abcdef0123456789abcdef0123456789ABCDEF01").1⟩

/-! ## The execution-block fetch in `GetBlockReward` -/

theorem GetExecutionBlock_withRpc_nullResult (c : Client) (statusCode : Nat) (bn : String) :
    GetExecutionBlock (withRpc c (.response statusCode (.ok nullResult))) bn = (none, none) := rfl

/-- C4. When the execution-block fetch returns a nil block and a nil error, the
handler does not answer 404: against `exampleClient` with the RPC reply
`result: null` it goes on to fetch the validator and then panics in
`CalculateBlockReward`; and whatever the rest of the upstream answers, its
response is never 404 "Execution block not found".  This holds whatever the
Unicode branch of `strings.ToLower` returns. -/
theorem GetBlockReward_null_execution_block (mapUnicodeLower : String → String) :
    GetExecutionBlock (withRpc exampleClient (.response 200 (.ok nullResult))) "0x10"
      = (none, none) ∧
    GetBlockReward mapUnicodeLower
        ⟨some (withRpc exampleClient (.response 200 (.ok nullResult)))⟩ "50"
      = ⟨[.headersHead, .blocks 50, .getBlockByNumber "0x10", .validators "7"], .crash⟩ ∧
    ∀ (c : Client) (statusCode : Nat) (slotStr : String),
      ((GetBlockReward mapUnicodeLower
          ⟨some (withRpc c (.response statusCode (.ok nullResult)))⟩
        slotStr).result == .done (errorJSON 404 "Execution block not found")) = false := by
  refine ⟨rfl, rfl, ?_⟩
  intro c statusCode slotStr
  simp only [GetBlockReward, GetExecutionBlock_withRpc_nullResult, CalculateBlockReward]
  repeat' split
  all_goals rfl

theorem GetExecutionBlock_error_block_nil (c : Client) (bn : String) (err : String)
    (executionBlock : Option Block)
    (h : GetExecutionBlock c bn = (executionBlock, some err)) : executionBlock = none := by
  unfold GetExecutionBlock at h
  split at h
  · exact (Prod.mk.inj h).1.symm
  · exact (Prod.mk.inj h).1.symm
  · split at h
    · exact (Prod.mk.inj h).1.symm
    · exact absurd (Prod.mk.inj h).2 (by simp)

/-- C5. A failed execution-block fetch is answered 404 whatever the error: a
transport failure, a decode failure and a JSON-RPC error object that is no
not-found message all give 404 "Execution block not found", because the block
is nil whenever the error is not; no run of the handler answers 500 "Failed to
get execution block".  This holds whatever the Unicode branch of
`strings.ToLower` returns. -/
theorem GetBlockReward_execution_fetch_error (mapUnicodeLower : String → String) :
    Contains "connection refused" "not found" = false ∧
    GetBlockReward mapUnicodeLower
        ⟨some (withRpc exampleClient (.failed "connection refused"))⟩ "50"
      = ⟨[.headersHead, .blocks 50, .getBlockByNumber "0x10"],
          .done (errorJSON 404 "Execution block not found")⟩ ∧
    GetBlockReward mapUnicodeLower
        ⟨some (withRpc exampleClient (.response 200 (.error "unexpected EOF")))⟩ "50"
      = ⟨[.headersHead, .blocks 50, .getBlockByNumber "0x10"],
          .done (errorJSON 404 "Execution block not found")⟩ ∧
    GetBlockReward mapUnicodeLower
        ⟨some (withRpc exampleClient (.response 200 (.ok { Error := some "internal error" })))⟩
        "50"
      = ⟨[.headersHead, .blocks 50, .getBlockByNumber "0x10"],
          .done (errorJSON 404 "Execution block not found")⟩ ∧
    ∀ (h : Handler) (slotStr : String),
      ((GetBlockReward mapUnicodeLower h slotStr).result
        == .done (errorJSON 500 "Failed to get execution block")) = false := by
  refine ⟨by decide, rfl, rfl, rfl, ?_⟩
  intro h slotStr
  unfold GetBlockReward
  repeat' split
  all_goals first
    | rfl
    | (rename_i hexec hcond
       rw [GetExecutionBlock_error_block_nil _ _ _ _ hexec] at hcond
       simp at hcond)

/-! ## The future-slot check of `GetSyncDuties` -/

/-- C6. The check `slot > currentSlot+32` wraps around: with the head slot
`2^64 - 1` the sum is 31, and the request for slot 100, which is not after the
head, is rejected as too far in the future. -/
theorem GetSyncDuties_tooFar_wraps :
    ParseUint "100" = (100, none) ∧
    GetCurrentSlot (withHead exampleClient "18446744073709551615")
      = (18446744073709551615, none) ∧
    100 ≤ 18446744073709551615 ∧
    GetSyncDuties ⟨some (withHead exampleClient "18446744073709551615")⟩ "100"
      = ⟨[.headersHead], .done (errorJSON 400 "Slot is too far in the future")⟩ := by
  refine ⟨by decide, by decide, by decide, by decide⟩

/-- Away from the wrap-around the check is the one on natural numbers. -/
theorem GetSyncDuties_tooFar_iff_of_no_wrap (c : Client) (slotStr : String)
    (slot currentSlot : Nat) (hp : ParseUint slotStr = (slot, none))
    (hc : GetCurrentSlot c = (currentSlot, none)) (hno : currentSlot + 32 < 2 ^ 64) :
    (GetSyncDuties ⟨some c⟩ slotStr).result
        = .done (errorJSON 400 "Slot is too far in the future")
      ↔ slot > currentSlot + 32 := by
  simp only [GetSyncDuties, hp, hc, Nat.mod_eq_of_lt hno]
  constructor
  · intro h
    by_contra hle
    rw [if_neg hle] at h
    revert h
    repeat' split
    all_goals first | decide | simp [errorJSON]
  · intro h
    rw [if_pos h]

/-! ## Public-key normalisation in `GetSyncDuties` -/

theorem has0x_eq_startsWith0x (v : String) : has0x v = startsWith0x v := by
  unfold has0x startsWith0x
  rcases v with ⟨l⟩
  rcases l with _ | ⟨a, _ | ⟨b, t⟩⟩
  · rfl
  · by_cases ha : a = '0' <;> simp [List.isPrefixOf, ha]
  · by_cases ha : a = '0' <;> by_cases hb : b = 'x' <;>
      simp [List.isPrefixOf, ha, hb, @eq_comm _ '0' a, @eq_comm _ 'x' b]

theorem startsWith0x_normalizeKey (v : String) : startsWith0x (normalizeKey v) = true := by
  unfold normalizeKey
  by_cases h : startsWith0x v = true
  · rw [if_pos h]; exact h
  · rw [if_neg h]; rfl

theorem getElem?_append_length_cons (a : List String) (v : String) (b : List String) :
    (a ++ v :: b)[a.length]? = some v := by
  induction a with
  | nil => simp
  | cons x a ih => simpa using ih

theorem set_append_length_cons (a : List String) (v x : String) (b : List String) :
    (a ++ v :: b).set a.length x = a ++ x :: b := by
  induction a with
  | nil => rfl
  | cons y a ih => simp [ih]

theorem ensure0xLoop_append (b : List String) (a : List String) :
    ensure0xLoop b.length a.length (a ++ b) = a ++ b.map normalizeKey := by
  induction b generalizing a with
  | nil => simp [ensure0xLoop]
  | cons v b ih =>
    have step : ∀ x : String, a ++ x :: b = (a ++ [x]) ++ b := fun x => by simp
    have hlen : ∀ x : String, (a ++ [x]).length = a.length + 1 := fun x => by simp
    rw [List.length_cons, ensure0xLoop, getElem?_append_length_cons]
    simp only [has0x_eq_startsWith0x, List.map_cons, normalizeKey]
    by_cases h : startsWith0x v = true
    · simp only [h, Bool.not_true, if_true]
      rw [if_neg (by simp), step v, ← hlen v, ih (a ++ [v])]
      simp
    · simp only [Bool.not_eq_true] at h
      simp only [h, Bool.not_false, if_true]
      rw [set_append_length_cons, step ("0x" ++ v), ← hlen ("0x" ++ v), ih (a ++ ["0x" ++ v])]
      simp

theorem syncDutiesKeys_eq (V : List String) :
    syncDutiesKeys V = (V.take 512).map normalizeKey := by
  unfold syncDutiesKeys
  have h := fun l : List String => ensure0xLoop_append l []
  simp only [List.length_nil, List.nil_append] at h
  by_cases hlen : V.length > 512
  · simp only [hlen, if_true]
    exact h _
  · simp only [hlen, if_false]
    rw [h V, List.take_of_length_le (by omega)]

/-- C7. After a successful sync-committee fetch returning the validator list
`V`, the keys answered are the first `min(len V, 512)` entries of `V` in order,
each kept when it starts with `0x` and prefixed with `0x` otherwise; every
answered key starts with `0x`, there are at most 512 of them, and the handler
answers 200 with exactly that list. -/
theorem GetSyncDuties_pubkeys (V : List String) :
    syncDutiesKeys V = (V.take 512).map normalizeKey ∧
    (syncDutiesKeys V).length = min V.length 512 ∧
    (∀ i, i < min V.length 512 → (syncDutiesKeys V)[i]? = V[i]?.map normalizeKey) ∧
    (∀ k ∈ syncDutiesKeys V, startsWith0x k = true) ∧
    (syncDutiesKeys V).length ≤ 512 ∧
    ∀ (c : Client) (slotStr : String) (slot currentSlot : Nat),
      ParseUint slotStr = (slot, none) →
      GetCurrentSlot c = (currentSlot, none) →
      ¬ slot > (currentSlot + 32) % 2 ^ 64 →
      GetSyncCommittee c slot = (some ⟨V⟩, none) →
      GetSyncDuties ⟨some c⟩ slotStr
        = ⟨[.headersHead, .syncCommittees (stateSlot slot)],
            .done ⟨200, .pubkeys ((V.take 512).map normalizeKey)⟩⟩ := by
  have hlen : (syncDutiesKeys V).length = min V.length 512 := by
    rw [syncDutiesKeys_eq, List.length_map, List.length_take, Nat.min_comm]
  refine ⟨syncDutiesKeys_eq V, hlen, ?_, ?_, ?_, ?_⟩
  · intro i hi
    rw [syncDutiesKeys_eq, List.getElem?_map, List.getElem?_take_of_lt (by omega)]
  · intro k hk
    rw [syncDutiesKeys_eq] at hk
    obtain ⟨v, -, rfl⟩ := List.mem_map.mp hk
    exact startsWith0x_normalizeKey v
  · rw [hlen]; omega
  · intro c slotStr slot currentSlot hp hc hnot hs
    simp only [GetSyncDuties, hp, hc, hs, if_neg hnot, syncDutiesKeys_eq, List.singleton_append]

/-- A request for slot 50 against `exampleClient`, whose committee is
`["0xab", "cd"]`: the state slot is 0 and the answer is `["0xab", "0xcd"]`. -/
theorem GetSyncDuties_pubkeys_witness :
    GetSyncDuties ⟨some exampleClient⟩ "50"
      = ⟨[.headersHead, .syncCommittees 0], .done ⟨200, .pubkeys ["0xab", "0xcd"]⟩⟩ :=
  (GetSyncDuties_pubkeys ["0xab", "cd"]).2.2.2.2.2 exampleClient "50" 50 100
    (by decide) (by decide) (by decide) rfl

/-! ## Sync-committee period arithmetic -/

/-- C8. For a 64-bit slot `S` the state slot requested by `GetSyncCommittee` is
the first slot of the 256-epoch period containing `S`: neither multiplication
wraps around, the result is a multiple of 8192 and
`stateSlot S <= S < stateSlot S + 8192`; slots 0 and 8191 give 0 and slot 8192
gives 8192. -/
theorem stateSlot_period_start (S : Nat) (h : S < 2 ^ 64) :
    S / 32 / 256 * 256 < 2 ^ 64 ∧
    S / 32 / 256 * 256 * 32 < 2 ^ 64 ∧
    stateSlot S = S / 32 / 256 * 256 * 32 ∧
    stateSlot S % 8192 = 0 ∧
    stateSlot S ≤ S ∧
    S < stateSlot S + 8192 ∧
    stateSlot 0 = 0 ∧ stateSlot 8191 = 0 ∧ stateSlot 8192 = 8192 := by
  have h1 : S / 32 / 256 * 256 < 2 ^ 64 := by omega
  have h2 : S / 32 / 256 * 256 * 32 < 2 ^ 64 := by omega
  have h3 : stateSlot S = S / 32 / 256 * 256 * 32 := by
    unfold stateSlot
    simp only [Nat.mod_eq_of_lt h1, Nat.mod_eq_of_lt h2]
  refine ⟨h1, h2, h3, ?_, ?_, ?_, by decide, by decide, by decide⟩ <;> rw [h3] <;> omega

/-- The last slot of period 1: `stateSlot 16383 = 8192`. -/
theorem stateSlot_period_start_witness :
    stateSlot 16383 = 8192 ∧ stateSlot 16383 ≤ 16383 ∧ 16383 < stateSlot 16383 + 8192 :=
  have h := stateSlot_period_start 16383 (by decide)
  ⟨by decide, h.2.2.2.2.1, h.2.2.2.2.2.1⟩

/-! ## Slot parsing and the future-slot check of `GetBlockReward` -/

theorem le_foldl_decimal (cs : List Char) (a : Nat) :
    a ≤ cs.foldl (fun acc c => acc * 10 + (c.toNat - 48)) a := by
  induction cs generalizing a with
  | nil => exact le_rfl
  | cons c cs ih =>
    rw [List.foldl_cons]
    exact le_trans (by omega) (ih _)

theorem parseUintLoop_ok (cs : List Char) (n : Nat) (hn : n < 2 ^ 64)
    (hall : cs.all isDecimalDigit = true)
    (hv : cs.foldl (fun acc c => acc * 10 + (c.toNat - 48)) n < 2 ^ 64) :
    parseUintLoop cs n = (cs.foldl (fun acc c => acc * 10 + (c.toNat - 48)) n, none) := by
  induction cs generalizing n with
  | nil => rfl
  | cons c cs ih =>
    simp only [List.all_cons, Bool.and_eq_true, isDecimalDigit, decide_eq_true_eq] at hall
    rw [List.foldl_cons] at hv ⊢
    have hge := le_foldl_decimal cs (n * 10 + (c.toNat - 48))
    have hlt : n * 10 + (c.toNat - 48) < 2 ^ 64 := lt_of_le_of_lt hge hv
    have hm1 : n * 10 % 2 ^ 64 = n * 10 := Nat.mod_eq_of_lt (by omega)
    have hm2 : (n * 10 + (c.toNat - 48)) % 2 ^ 64 = n * 10 + (c.toNat - 48) :=
      Nat.mod_eq_of_lt hlt
    rw [parseUintLoop, if_pos hall.1]
    simp only [hm1, hm2]
    rw [if_neg (by omega), if_neg (by omega)]
    exact ih _ hlt hall.2 hv

theorem parseUintLoop_err (cs : List Char) (n : Nat) (hn : n < 2 ^ 64)
    (hbad : ¬ (cs.all isDecimalDigit = true ∧
      cs.foldl (fun acc c => acc * 10 + (c.toNat - 48)) n < 2 ^ 64)) :
    ∃ v e, parseUintLoop cs n = (v, some e) := by
  induction cs generalizing n with
  | nil => exact absurd ⟨rfl, hn⟩ hbad
  | cons c cs ih =>
    rw [parseUintLoop]
    by_cases hd : 48 ≤ c.toNat ∧ c.toNat ≤ 57
    · rw [if_pos hd]
      have hdig : isDecimalDigit c = true := by simp [isDecimalDigit, hd]
      simp only [List.all_cons, hdig, Bool.true_and, List.foldl_cons] at hbad
      by_cases hcut : n ≥ (2 ^ 64 - 1) / 10 + 1
      · simp only [hcut, if_true]
        exact ⟨_, _, rfl⟩
      · simp only [hcut, if_false]
        have hm1 : n * 10 % 2 ^ 64 = n * 10 := Nat.mod_eq_of_lt (by omega)
        rw [hm1]
        by_cases hov : n * 10 + (c.toNat - 48) < 2 ^ 64
        · rw [Nat.mod_eq_of_lt hov, if_neg (by omega)]
          exact ih _ hov hbad
        · have hwrap : (n * 10 + (c.toNat - 48)) % 2 ^ 64 < n * 10 := by omega
          rw [if_pos (Or.inl hwrap)]
          exact ⟨_, _, rfl⟩
    · rw [if_neg hd]
      exact ⟨_, _, rfl⟩

/-- The model `ParseUint` accepts exactly the base-10 unsigned integers representable in 64
bits, with their value. -/
theorem ParseUint_of_isDecimalUint64 (s : String) (h : isDecimalUint64 s = true) :
    ParseUint s = (decimalValue s, none) := by
  simp only [isDecimalUint64, Bool.and_eq_true, Bool.not_eq_true', decide_eq_true_eq] at h
  obtain ⟨⟨hne, hall⟩, hv⟩ := h
  have hs : s ≠ "" := by
    rintro rfl
    simp at hne
  rw [ParseUint, if_neg hs]
  exact parseUintLoop_ok s.data 0 (by norm_num) hall hv

theorem ParseUint_of_not_isDecimalUint64 (s : String) (h : isDecimalUint64 s = false) :
    ∃ v e, ParseUint s = (v, some e) := by
  unfold ParseUint
  by_cases hs : s = ""
  · rw [if_pos hs]
    exact ⟨_, _, rfl⟩
  · rw [if_neg hs]
    apply parseUintLoop_err s.data 0 (by norm_num)
    rintro ⟨hall, hv⟩
    have hne : s.data.isEmpty = false := by
      rcases s with ⟨l⟩
      cases l with
      | nil => exact absurd rfl hs
      | cons a t => rfl
    have hv2 : decimalValue s < 2 ^ 64 := hv
    simp [isDecimalUint64, hne, hall] at h
    omega

/-- C9. For every slot parameter that is not a base-10 unsigned integer
representable in 64 bits, `GetBlockReward` answers 400 with the body
`error: "Invalid slot number", code: 400` and issues no upstream request; this
holds for every handler, the one with a nil client included, and whatever the
Unicode branch of `strings.ToLower` returns. -/
theorem GetBlockReward_invalid_slot (mapUnicodeLower : String → String) (h : Handler)
    (slotStr : String) (hbad : isDecimalUint64 slotStr = false) :
    GetBlockReward mapUnicodeLower h slotStr
      = ⟨[], .done ⟨400, .errorResponse "Invalid slot number" 400⟩⟩ := by
  obtain ⟨v, e, hp⟩ := ParseUint_of_not_isDecimalUint64 slotStr hbad
  simp only [GetBlockReward, hp]
  rfl

/-- The request `/blockreward/invalid` on a handler with a nil client, as in
`TestGetBlockReward_InvalidSlot`. -/
theorem GetBlockReward_invalid_slot_witness :
    GetBlockReward keepBytes ⟨none⟩ "invalid"
      = ⟨[], .done ⟨400, .errorResponse "Invalid slot number" 400⟩⟩ :=
  GetBlockReward_invalid_slot keepBytes ⟨none⟩ "invalid" (by decide)

/-- C10. With the slot parsed to `slot` and the current slot fetched as
`currentSlot`: when `slot > currentSlot` the handler answers 400 with
`error: "Slot is in the future", code: 400` after the head request alone (no
beacon-block, execution-block or validator request); when `slot <= currentSlot`
its response is never that error.  This holds whatever the Unicode branch of
`strings.ToLower` returns. -/
theorem GetBlockReward_future_slot (mapUnicodeLower : String → String) (c : Client)
    (slotStr : String) (slot currentSlot : Nat)
    (hp : ParseUint slotStr = (slot, none))
    (hc : GetCurrentSlot c = (currentSlot, none)) :
    (slot > currentSlot →
      GetBlockReward mapUnicodeLower ⟨some c⟩ slotStr
        = ⟨[.headersHead], .done ⟨400, .errorResponse "Slot is in the future" 400⟩⟩) ∧
    (slot ≤ currentSlot →
      (GetBlockReward mapUnicodeLower ⟨some c⟩ slotStr).result
        ≠ .done ⟨400, .errorResponse "Slot is in the future" 400⟩) := by
  constructor
  · intro hgt
    simp only [GetBlockReward, hp, hc, if_pos hgt]
    rfl
  · intro hle
    simp only [GetBlockReward, hp, hc, if_neg (not_lt.mpr hle)]
    repeat' split
    all_goals first | decide | simp [errorJSON]

/-- Against `exampleClient`, whose head slot is 100: slot 101 is refused as
future after the head request alone, slot 100 is not refused. -/
theorem GetBlockReward_future_slot_witness :
    GetBlockReward keepBytes ⟨some exampleClient⟩ "101"
        = ⟨[.headersHead], .done ⟨400, .errorResponse "Slot is in the future" 400⟩⟩ ∧
      (GetBlockReward keepBytes ⟨some exampleClient⟩ "100").result
        ≠ .done ⟨400, .errorResponse "Slot is in the future" 400⟩ :=
  ⟨(GetBlockReward_future_slot keepBytes exampleClient "101" 101 100 (by decide)
      (by decide)).1 (by decide),
    (GetBlockReward_future_slot keepBytes exampleClient "100" 100 100 (by decide)
      (by decide)).2 (by decide)⟩

/-! ## The not-found fallback of `GetSyncDuties` -/

/-- C11. With the slot parsed, the current slot fetched and the future-slot
check passed, a sync-committee request answered with status 404 makes
`GetSyncCommittee` fail with "sync committee not found", and the handler
answers 200, not an error, with the fixed placeholder list: exactly 3 keys,
each starting with `0x`, the same list whatever the slot. -/
theorem GetSyncDuties_notFound_fallback (c : Client) (slotStr : String)
    (slot currentSlot : Nat) (body : Except String SyncCommittee)
    (hp : ParseUint slotStr = (slot, none))
    (hc : GetCurrentSlot c = (currentSlot, none))
    (hnot : ¬ slot > (currentSlot + 32) % 2 ^ 64)
    (h404 : c.syncCommittees (stateSlot slot) = .response 404 body) :
    GetSyncCommittee c slot = (none, some "sync committee not found") ∧
    GetSyncDuties ⟨some c⟩ slotStr
      = ⟨[.headersHead, .syncCommittees (stateSlot slot)], .done ⟨200, .pubkeys
          ["0x93247f2209abcacf57b75a51dafae777f9dd38bc7053d1af526f220a7489a6d3a2753e5f3e8b1cfe39b56f43611df74a",
           "0xa572cbea904d67468808c8eb50a9450c9721db309128012543902d0ac358a62ae28f75bb8f1c7c42c39a8c5529bf0f4e",
           "0x89ece308f9d1f0131765212deca99697b112d61f9be9a5f1f3780a51335b3ff981747a0b2ca2179b96d2c0c9024e5224"]⟩⟩ ∧
    mockPubkeys.length = 3 ∧
    (∀ k ∈ mockPubkeys, startsWith0x k = true) := by
  have hs : GetSyncCommittee c slot = (none, some "sync committee not found") := by
    simp only [GetSyncCommittee, h404, if_true]
  have hcontains : Contains "sync committee not found" "not found" = true := by decide
  refine ⟨hs, ?_, by decide, by decide⟩
  simp only [GetSyncDuties, hp, hc, hs, if_neg hnot, hcontains, if_true, List.singleton_append]
  rfl

/-- Against `exampleClient` with every sync-committee request answered 404 (head
slot 100): slot 50 and slot 120 both get 200 with the same three keys. -/
theorem GetSyncDuties_notFound_fallback_witness :
    (GetSyncDuties ⟨some (withSyncCommittees exampleClient (.response 404 (.ok ⟨[]⟩)))⟩
        "50").result = .done ⟨200, .pubkeys mockPubkeys⟩ ∧
    (GetSyncDuties ⟨some (withSyncCommittees exampleClient (.response 404 (.ok ⟨[]⟩)))⟩
        "120").result = .done ⟨200, .pubkeys mockPubkeys⟩ :=
  ⟨congrArg Run.result
      (GetSyncDuties_notFound_fallback
        (withSyncCommittees exampleClient (.response 404 (.ok ⟨[]⟩))) "50" 50 100 (.ok ⟨[]⟩)
        (by decide) (by decide) (by decide) rfl).2.1,
    congrArg Run.result
      (GetSyncDuties_notFound_fallback
        (withSyncCommittees exampleClient (.response 404 (.ok ⟨[]⟩))) "120" 120 100 (.ok ⟨[]⟩)
        (by decide) (by decide) (by decide) rfl).2.1⟩

end EthValidatorApi
